import Mathlib

/-!
Verification of the motion builtin execution state store
(`services/motion/builtin/state`, source embedded in
`src/services/motion/builtin/state/state_test.go`, lines 1223-1871).

Shallow embedding conventions:
* `uuid.UUID` values (execution ids, plan ids) are `Nat`, with `0` playing
  the role of `uuid.Nil`; `uuid.New()` is modelled as drawing from a
  counter supply (the spec posits a globally-unique identifier source).
* `resource.Name` is `String` (an opaque equality-comparable identifier).
* `time.Time` is `Nat`.
* Go maps are association lists with `mapLookup`/`mapInsert`; `mapInsert`
  replaces the binding in place, so iteration order is insertion order
  (one admissible determinization of Go's unspecified map iteration
  order).
* A Go runtime panic (index out of range on a `nil` slice) is modelled by
  an operation returning `none`; a Go `error` return is an `Except.error`.
-/

namespace MotionState

/-- `motion.PlanState` (services/motion): Unspecified, InProgress, Stopped,
Succeeded, Failed. -/
inductive PlanState where
  | unspecified
  | inProgress
  | stopped
  | succeeded
  | failed
deriving DecidableEq, Repr

/-- Membership in `motion.TerminalStateSet`: the switch in
`updateStateStatusUpdate` (state_test.go:1829) and the spec's glossary both
list Stopped, Succeeded and Failed as the terminal states. -/
def PlanState.isTerminal : PlanState → Bool
  | .stopped => true
  | .succeeded => true
  | .failed => true
  | _ => false

/-- `motion.PlanStatus`: state, optional reason, timestamp. -/
structure PlanStatus where
  state : PlanState
  timestamp : Nat
  reason : Option String
deriving DecidableEq, Repr

/-- One step of a plan: a mapping from resource name to a pose.  The pose
payload is irrelevant to every claim about the store, so it is carried as an
opaque numeric code. -/
def PlanStep := List (String × Nat)
deriving instance DecidableEq, Repr for PlanStep

/-- `motion.Plan`: ID, ExecutionID, ComponentName, Steps
(state_test.go:1420-1425 builds one). -/
structure Plan where
  id : Nat
  executionID : Nat
  componentName : String
  steps : List PlanStep
deriving DecidableEq, Repr

/-- `motion.PlanWithStatus`: a plan plus its status history, newest first. -/
structure PlanWithStatus where
  plan : Plan
  statusHistory : List PlanStatus
deriving DecidableEq, Repr

/-- `motion.PlanStatusWithID` (emitted by ListPlanStatuses). -/
structure PlanStatusWithID where
  executionID : Nat
  componentName : String
  planID : Nat
  status : PlanStatus
deriving DecidableEq, Repr

/-- `stateExecution` (state_test.go:1331-1337): the per-execution record kept
by the store.  The `waitGroup` and `cancelCauseFunc` concurrency handles are
not data and are omitted. -/
structure stateExecution where
  id : Nat
  componentName : String
  history : List PlanWithStatus
deriving DecidableEq, Repr

/-- The zero value of `stateExecution` (what a Go map read returns for a
missing key). -/
def zeroStateExecution : stateExecution := ⟨0, "", []⟩

/-- The zero value of `motion.PlanWithStatus`. -/
def zeroPlanWithStatus : PlanWithStatus := ⟨⟨0, 0, "", []⟩, []⟩

/-- Association-list reading of a Go map: the value of the first binding of
the key, if any. -/
def mapLookup {κ α : Type} [DecidableEq κ] : List (κ × α) → κ → Option α
  | [], _ => none
  | p :: rest, k => if p.1 = k then some p.2 else mapLookup rest k

/-- Association-list writing of a Go map: replace the first binding of the
key in place, or append a new binding.  Keeping the position of existing
bindings makes iteration order stable (insertion order). -/
def mapInsert {κ α : Type} [DecidableEq κ] : List (κ × α) → κ → α → List (κ × α)
  | [], k, v => [(k, v)]
  | p :: rest, k, v =>
    if p.1 = k then (k, v) :: rest else p :: mapInsert rest k v

/-- `componentState` (state_test.go:1310-1313): execution-id history (newest
first) plus the map from execution id to execution. -/
structure componentState where
  executionIDHistory : List Nat
  executionsByID : List (Nat × stateExecution)
deriving DecidableEq, Repr

/-- `componentState.lastExecutionID` (state_test.go:1348-1350) reads
`executionIDHistory[0]`; `none` models the index-out-of-range panic on an
empty history. -/
def componentState.lastExecutionID? (cs : componentState) : Option Nat :=
  cs.executionIDHistory.head?

/-- `componentState.lastExecution` (state_test.go:1344-1346): map read of the
newest id (zero value if the id is missing from the map); `none` models the
panic of `lastExecutionID()` on an empty history. -/
def componentState.lastExecution? (cs : componentState) : Option stateExecution :=
  cs.lastExecutionID?.map fun i => (mapLookup cs.executionsByID i).getD zeroStateExecution

/-- Errors of the state package (state_test.go:1247-1254) together with the
ad-hoc errors built with `fmt.Errorf`/`errors.New` in its bodies. -/
inductive Err where
  | unknownResource
  | notFound
  | executionStopped
  | alreadyActive (existingID : Nat)
  | stateCorrupted
  | planningFailed (msg : String)
deriving DecidableEq, Repr

/-- `State` (state_test.go:1588-1596): the component-indexed store.  The
context/waitgroup/lock concurrency handles are omitted; every operation below
is the body of one lock-protected critical section. -/
structure State where
  componentStateByComponent : List (String × componentState)
deriving DecidableEq, Repr

/-- `NewState` (state_test.go:1599-1609): the store starts with an empty
component map. -/
def NewState : State := ⟨[]⟩

/-- `State.activeExecution` (state_test.go:1858-1871).  Outer `none` models
the panics of `lastExecution()` / `history[0]` / `StatusHistory[0]`; the inner
`Except` is the Go error return. -/
def State.activeExecution (s : State) (name : String) :
    Option (Except Err stateExecution) :=
  match mapLookup s.componentStateByComponent name with
  | none => some (.error .unknownResource)
  | some cs =>
    match cs.lastExecution? with
    | none => none
    | some es =>
      match es.history.head? with
      | none => none
      | some pws =>
        match pws.statusHistory.head? with
        | none => none
        | some st =>
          if st.state.isTerminal then some (.error .notFound) else some (.ok es)

/-- `State.ValidateNoActiveExecutionID` (state_test.go:1774-1781): an error
(`there is already an active executionID`) exactly when `activeExecution`
succeeds. -/
def State.validateNoActiveExecutionID (s : State) (name : String) :
    Option (Except Err Unit) :=
  (s.activeExecution name).map fun r =>
    match r with
    | .ok es => .error (.alreadyActive es.id)
    | .error _ => .ok ()

/-- `newPlanMsg` (state_test.go:1315-1318). -/
structure newPlanMsg where
  plan : Plan
  planStatus : PlanStatus
deriving DecidableEq, Repr

/-- `stateUpdateMsg` (state_test.go:1320-1325). -/
structure stateUpdateMsg where
  componentName : String
  executionID : Nat
  planID : Nat
  planStatus : PlanStatus
deriving DecidableEq, Repr

/-- `State.updateStateNewExecution` (state_test.go:1783-1802).  A duplicate
execution id is logged and dropped; otherwise the id is prepended to the
component's id history and the execution (still with an empty plan history)
is added to its map, creating the componentState if needed. -/
def State.updateStateNewExecution (s : State) (newE : stateExecution) : State :=
  match mapLookup s.componentStateByComponent newE.componentName with
  | some cs =>
    match mapLookup cs.executionsByID newE.id with
    | some _ => s
    | none =>
      { componentStateByComponent :=
          mapInsert s.componentStateByComponent newE.componentName
            { executionIDHistory := newE.id :: cs.executionIDHistory
              executionsByID := mapInsert cs.executionsByID newE.id newE } }
  | none =>
    { componentStateByComponent :=
        mapInsert s.componentStateByComponent newE.componentName
          { executionIDHistory := [newE.id]
            executionsByID := [(newE.id, newE)] } }

/-- `State.updateStateNewPlan` (state_test.go:1804-1824).  A status other
than InProgress, or a plan for an execution that is not the component's
newest, is logged and dropped; `none` models the `lastExecutionID()` panic
when the plan's component has no componentState (the zero value has an empty
id history; a componentState whose id history is empty panics the same way).
The execution is then read with a plain map access, so a newest id missing
from the executions map yields the zero-value execution, to which the new
plan is prepended before the write-back. -/
def State.updateStateNewPlan (s : State) (msg : newPlanMsg) : Option State :=
  if msg.planStatus.state ≠ .inProgress then some s
  else
    match mapLookup s.componentStateByComponent msg.plan.componentName with
    | none => none
    | some cs =>
      match cs.executionIDHistory.head? with
      | none => none
      | some activeExecutionID =>
        if msg.plan.executionID ≠ activeExecutionID then some s
        else
          match mapLookup cs.executionsByID msg.plan.executionID with
          | none =>
            some ⟨mapInsert s.componentStateByComponent msg.plan.componentName
              ⟨cs.executionIDHistory,
                mapInsert cs.executionsByID msg.plan.executionID
                  ⟨zeroStateExecution.id, zeroStateExecution.componentName,
                    [⟨msg.plan, [msg.planStatus]⟩]⟩⟩⟩
          | some e =>
            some ⟨mapInsert s.componentStateByComponent msg.plan.componentName
              ⟨cs.executionIDHistory,
                mapInsert cs.executionsByID msg.plan.executionID
                  ⟨e.id, e.componentName,
                    ⟨msg.plan, [msg.planStatus]⟩ :: e.history⟩⟩⟩

/-- `State.updateStateStatusUpdate` (state_test.go:1826-1856).  Non-terminal
states and unknown components are logged and dropped; the execution is read
from the map without an existence check, so an unknown execution id yields
the zero value and `execution.history[0]` panics (`none`); a status update
for a plan other than the newest is logged and dropped; otherwise the status
is prepended to the newest plan's status history. -/
def State.updateStateStatusUpdate (s : State) (update : stateUpdateMsg) :
    Option State :=
  if ¬ update.planStatus.state.isTerminal then some s
  else
    match mapLookup s.componentStateByComponent update.componentName with
    | none => some s
    | some cs =>
      match mapLookup cs.executionsByID update.executionID with
      | none => none
      | some e =>
        match e.history.head? with
        | none => none
        | some lastPlanWithStatus =>
          if lastPlanWithStatus.plan.id ≠ update.planID then some s
          else
            some ⟨mapInsert s.componentStateByComponent update.componentName
              ⟨cs.executionIDHistory,
                mapInsert cs.executionsByID update.executionID
                  ⟨e.id, e.componentName,
                    ⟨lastPlanWithStatus.plan,
                      update.planStatus :: lastPlanWithStatus.statusHistory⟩ ::
                      e.history.tail⟩⟩⟩

/-- `execution.notifyStateNewExecution` (state_test.go:1530-1542): under one
lock acquisition, register the execution and its first plan with an
InProgress status. -/
def State.notifyStateNewExecution (s : State) (e : stateExecution) (plan : Plan)
    (t : Nat) : Option State :=
  (s.updateStateNewExecution e).updateStateNewPlan
    ⟨plan, ⟨.inProgress, t, none⟩⟩

/-- `execution.notifyStateNewPlan` (state_test.go:1544-1551): a new plan is
always submitted with an InProgress status. -/
def State.notifyStateNewPlan (s : State) (plan : Plan) (t : Nat) : Option State :=
  s.updateStateNewPlan ⟨plan, ⟨.inProgress, t, none⟩⟩

/-- `execution.notifyStatePlanFailed` (state_test.go:1553-1562). -/
def State.notifyStatePlanFailed (s : State) (name : String) (execId planId : Nat)
    (reason : String) (t : Nat) : Option State :=
  s.updateStateStatusUpdate ⟨name, execId, planId, ⟨.failed, t, some reason⟩⟩

/-- `execution.notifyStatePlanSucceeded` (state_test.go:1564-1573). -/
def State.notifyStatePlanSucceeded (s : State) (name : String) (execId planId : Nat)
    (t : Nat) : Option State :=
  s.updateStateStatusUpdate ⟨name, execId, planId, ⟨.succeeded, t, none⟩⟩

/-- `execution.notifyStatePlanStopped` (state_test.go:1575-1584). -/
def State.notifyStatePlanStopped (s : State) (name : String) (execId planId : Nat)
    (t : Nat) : Option State :=
  s.updateStateStatusUpdate ⟨name, execId, planId, ⟨.stopped, t, none⟩⟩

/-- `State.PlanHistory` (state_test.go:1688-1729).  `executionID = 0` plays
the role of `uuid.Nil` (no execution id supplied).  The result is a fresh
slice in Go (`make` + `copy`); with value semantics the copy is the history
itself, and in the LastPlanOnly branch `make([]..., 1)` followed by `copy`
yields the newest plan, or the zero value if the history is empty. -/
def State.planHistory (s : State) (name : String) (executionID : Nat)
    (lastPlanOnly : Bool) : Option (Except Err (List PlanWithStatus)) :=
  match mapLookup s.componentStateByComponent name with
  | none => some (.error .unknownResource)
  | some cs =>
    if lastPlanOnly then
      match cs.lastExecution? with
      | none => none
      | some ex =>
        if executionID = 0 ∨ executionID = ex.id then
          some (.ok [ex.history.headD zeroPlanWithStatus])
        else
          match mapLookup cs.executionsByID executionID with
          | some ex' => some (.ok [ex'.history.headD zeroPlanWithStatus])
          | none => some (.error .notFound)
    else if executionID ≠ 0 then
      match mapLookup cs.executionsByID executionID with
      | some ex => some (.ok ex.history)
      | none => some (.error .notFound)
    else
      match cs.lastExecution? with
      | none => none
      | some ex => some (.ok ex.history)

/-- One entry of the default `ListPlanStatuses` listing: the newest status of
one plan (state_test.go:1760-1767); `none` models the `StatusHistory[0]`
panic on an empty status history. -/
def pwsEntry (e : stateExecution) (pws : PlanWithStatus) : Option PlanStatusWithID :=
  pws.statusHistory.head?.map fun st => ⟨e.id, e.componentName, pws.plan.id, st⟩

/-- The entries of one execution, plans newest first. -/
def execEntries (e : stateExecution) : Option (List PlanStatusWithID) :=
  e.history.mapM (pwsEntry e)

/-- The entries of one componentState: executions in id-history order
(newest first); a history id missing from the map aborts the whole listing
with the `state is corrupted` error (state_test.go:1755-1759). -/
def csEntries (cs : componentState) : List Nat →
    Option (Except Err (List PlanStatusWithID))
  | [] => some (.ok [])
  | id :: rest =>
    match mapLookup cs.executionsByID id with
    | none => some (.error .stateCorrupted)
    | some e =>
      match execEntries e with
      | none => none
      | some l =>
        match csEntries cs rest with
        | none => none
        | some (.error err) => some (.error err)
        | some (.ok l') => some (.ok (l ++ l'))

/-- The default-branch iteration of `ListPlanStatuses` over the component
map (state_test.go:1754-1769). -/
def listAllEntries : List (String × componentState) →
    Option (Except Err (List PlanStatusWithID))
  | [] => some (.ok [])
  | (_, cs) :: rest =>
    match csEntries cs cs.executionIDHistory with
    | none => none
    | some (.error err) => some (.error err)
    | some (.ok l) =>
      match listAllEntries rest with
      | none => none
      | some (.error err) => some (.error err)
      | some (.ok l') => some (.ok (l ++ l'))

/-- The OnlyActivePlans-branch iteration of `ListPlanStatuses`
(state_test.go:1740-1752): one entry per component whose `activeExecution`
succeeds. -/
def listActiveEntries (s : State) : List (String × componentState) →
    Option (List PlanStatusWithID)
  | [] => some []
  | (name, _) :: rest =>
    match s.activeExecution name with
    | none => none
    | some (.error _) => listActiveEntries s rest
    | some (.ok e) =>
      match e.history.head? with
      | none => none
      | some pws =>
        match pws.statusHistory.head? with
        | none => none
        | some st =>
          (listActiveEntries s rest).map
            (⟨e.id, e.componentName, pws.plan.id, st⟩ :: ·)

/-- `State.ListPlanStatuses` (state_test.go:1735-1772). -/
def State.listPlanStatuses (s : State) (onlyActivePlans : Bool) :
    Option (Except Err (List PlanStatusWithID)) :=
  if onlyActivePlans then
    (listActiveEntries s s.componentStateByComponent).map .ok
  else
    listAllEntries s.componentStateByComponent

/-- `State.StopExecutionByResource` (state_test.go:1657-1679): the function
itself only reads the store (UnknownResource when the component has no
componentState, NotFound when the newest id has no map entry, success
otherwise); the `e.stop()` it then performs cancels the execution's context
and waits, which never mutates the store directly. -/
def State.stopExecutionByResource (s : State) (name : String) :
    Option (Except Err Unit) :=
  match mapLookup s.componentStateByComponent name with
  | none => some (.error .unknownResource)
  | some cs =>
    match cs.executionIDHistory.head? with
    | none => none
    | some lastId =>
      match mapLookup cs.executionsByID lastId with
      | none => some (.error .notFound)
      | some _ => some (.ok ())

/-- The complete effect of a `StopExecutionByResource` call on the store:
the call itself (which only reads), composed with the reaction of the
stopped execution's worker.  When the newest execution's newest plan is
still non-terminal its worker is alive and blocked in the select of
`execution.start` (state_test.go:1471-1475), so the cancellation makes it
send `notifyStatePlanStopped` for its newest plan before exiting; when that
plan is already terminal the worker has exited and nothing further happens
(the idempotent case). -/
def State.stopResource (s : State) (name : String) (t : Nat) :
    Option (Except Err State) :=
  match mapLookup s.componentStateByComponent name with
  | none => some (.error .unknownResource)
  | some cs =>
    match cs.executionIDHistory.head? with
    | none => none
    | some lastId =>
      match mapLookup cs.executionsByID lastId with
      | none => some (.error .notFound)
      | some e =>
        match e.history.head? with
        | none => none
        | some pws =>
          match pws.statusHistory.head? with
          | none => none
          | some st =>
            if st.state.isTerminal then some (.ok s)
            else (s.notifyStatePlanStopped name lastId pws.plan.id t).map .ok

/-- The result of the factory pipeline run by `execution.newPlanWithExecutor`
(state_test.go:1405-1427): the steps that end up in the recorded
`motion.Plan` (the waypoints/motionplan/geo-pose payloads are opaque to the
store and omitted). -/
structure PlanResp where
  steps : List PlanStep
deriving DecidableEq, Repr

/-- `execution.newPlanWithExecutor` (state_test.go:1405-1427): an error from
the constructor, from `Plan`, or from `toGeoPosePlanSteps` is returned
unchanged; on success a `motion.Plan` is built carrying a fresh plan id, the
execution's id and component name, and the steps. -/
def newPlanWithExecutor (planOutcome : Except Err PlanResp) (planId execId : Nat)
    (name : String) : Except Err Plan :=
  match planOutcome with
  | .error e => .error e
  | .ok resp => .ok ⟨planId, execId, name, resp.steps⟩

/-- Whether some component of the store holds the execution id, in its id
history or its executions map. -/
def State.hasExecutionID (s : State) (id : Nat) : Bool :=
  s.componentStateByComponent.any fun p =>
    (id ∈ p.2.executionIDHistory : Bool) || (mapLookup p.2.executionsByID id).isSome

/-- What `StartExecution` returns together with the store it leaves behind:
the Go signature is `(motion.ExecutionID, error)` with `uuid.Nil` on every
error path. -/
structure StartOutcome where
  id : Nat
  err : Option Err
  state : State
  supply : Nat
deriving DecidableEq, Repr

/-- `state.StartExecution` (state_test.go:1612-1648) together with the
synchronous part of `execution.start` (state_test.go:1430-1446): validate
that no execution is active, draw a fresh execution id from the uuid supply,
run the factory's initial `Plan` (an error is returned unchanged and the
store is untouched), then register the execution with its first InProgress
plan and return the id.  The nil-receiver check of the Go function has no
counterpart (a Lean `State` cannot be a nil pointer).  `supply` is the
uuid.New() counter: the execution id is drawn before `Plan` runs, the plan
id after it succeeds. -/
def startExecution (s : State) (supply : Nat) (name : String)
    (planOutcome : Except Err PlanResp) (t : Nat) : Option StartOutcome :=
  match s.validateNoActiveExecutionID name with
  | none => none
  | some (.error e) => some ⟨0, some e, s, supply⟩
  | some (.ok ()) =>
    match newPlanWithExecutor planOutcome (supply + 1) supply name with
    | .error e => some ⟨0, some e, s, supply + 1⟩
    | .ok plan =>
      match s.notifyStateNewExecution ⟨supply, name, []⟩ plan t with
      | none => none
      | some s' => some ⟨supply, none, s', supply + 2⟩

/-- The replan reason recorded on the previous plan when `Execute` asks for
a replan (state_test.go:1489-1494): the Go code initialises the reason to
the constant string and only overrides it from `res.err`; the
`ExecuteResp.ReplanReason` field returned by `Execute` is never consulted
(the TODO on state_test.go:1490 acknowledges this). -/
def replanReasonFrom (executeErr : Option String) (_replanReasonField : String) :
    String :=
  match executeErr with
  | some msg => msg
  | none => "replan triggered without providing a reason"

/-- Whether the newest plan of the given execution currently has a Failed
newest status.  `execution.start` sends `notifyStateNewPlan` only right
after `notifyStatePlanFailed` for the same execution's previous plan
(state_test.go:1509-1512); between the two lock acquisitions no other
goroutine writes to this execution's history, so every new-plan message
that `updateStateNewPlan` accepts is sent while this predicate holds. -/
def State.lastPlanOfExecutionFailed (s : State) (name : String) (execId : Nat) :
    Bool :=
  match mapLookup s.componentStateByComponent name with
  | none => false
  | some cs =>
    match mapLookup cs.executionsByID execId with
    | none => false
    | some e =>
      match e.history.head? with
      | none => false
      | some pws =>
        match pws.statusHistory.head? with
        | none => false
        | some st => st.state = .failed

/-- The store states reachable through the store's lifecycle notifications,
in the order `execution.start` (state_test.go:1430-1519) emits them.  Each
constructor is one lock-protected mutation:
* `start`: `StartExecution` passed validation with a fresh uuid and its
  initial `Plan` succeeded, so `notifyStateNewExecution` registered the
  execution together with its first InProgress plan (the uuid freshness
  hypothesis models the uuid.New() contract);
* `statusUpdate`: any `updateStateStatusUpdate` that did not panic (the
  runner's PlanSucceeded / PlanFailed / PlanStopped notifications are
  instances; allowing every message makes the relation an over-approximation
  of the runner's behaviour);
* `newPlan`: `notifyStateNewPlan` as emitted in the replan branch, which the
  runner only reaches right after its `notifyStatePlanFailed` for the same
  execution's previous newest plan was applied. -/
inductive Reachable : State → Prop where
  | init : Reachable NewState
  | start {s s' : State} {name : String} {execId : Nat} {plan : Plan} {t : Nat} :
      Reachable s →
      s.validateNoActiveExecutionID name = some (.ok ()) →
      s.hasExecutionID execId = false →
      plan.executionID = execId →
      plan.componentName = name →
      s.notifyStateNewExecution ⟨execId, name, []⟩ plan t = some s' →
      Reachable s'
  | statusUpdate {s s' : State} {msg : stateUpdateMsg} :
      Reachable s →
      s.updateStateStatusUpdate msg = some s' →
      Reachable s'
  | newPlan {s s' : State} {plan : Plan} {t : Nat} :
      Reachable s →
      s.lastPlanOfExecutionFailed plan.componentName plan.executionID = true →
      s.notifyStateNewPlan plan t = some s' →
      Reachable s'

/-- The newest status of an execution's newest plan, when the history
indices are in range. -/
def stateExecution.newestStatus? (e : stateExecution) : Option PlanStatus :=
  e.history.head?.bind fun pws => pws.statusHistory.head?

/-- Modelled from the spec: whether the TTL sweep evicts this execution.
The sweep "removes from the id history every execution whose newest plan has
been in a terminal state for longer than `TTL`"; an execution whose newest
plan is non-terminal "is never evicted regardless of age" (spec §4.1).  The
sweep implementation itself is not under src/ (the tests construct
`state.Request{TTL, TTLCheckInterval}` for a `NewState` variant whose body
is absent). -/
def executionEvictable (ttl now : Nat) (e : stateExecution) : Bool :=
  match e.newestStatus? with
  | none => false
  | some st => st.state.isTerminal && st.timestamp + ttl < now

/-- Modelled from the spec: one component's TTL sweep — drop evicted
executions from the id history and delete the corresponding map entries
(spec §4.1). -/
def componentState.ttlSweep (cs : componentState) (ttl now : Nat) : componentState :=
  { executionIDHistory := cs.executionIDHistory.filter fun id =>
      match mapLookup cs.executionsByID id with
      | some e => ! executionEvictable ttl now e
      | none => false
    executionsByID := cs.executionsByID.filter fun p =>
      ! executionEvictable ttl now p.2 }

/-- Modelled from the spec: the store after one wake-up of the background
TTL sweeper, which processes every component (spec §4.1). -/
def State.ttlSweep (s : State) (ttl now : Nat) : State :=
  { componentStateByComponent :=
      s.componentStateByComponent.map fun p => (p.1, p.2.ttlSweep ttl now) }

/-- The entry the default listing emits for one plan: the plan's newest
status (`headD` only ever meets a non-empty status history on well-formed
stores). -/
def statusEntry (e : stateExecution) (pws : PlanWithStatus) : PlanStatusWithID :=
  ⟨e.id, e.componentName, pws.plan.id,
    pws.statusHistory.headD ⟨.unspecified, 0, none⟩⟩

/-- The default `ListPlanStatuses` listing written as one pure expression:
for each component in map-iteration order, for each execution in id-history
order (newest first), for each plan newest first, the newest status.  Used
to state what the listing contains; equal to `listPlanStatuses` on
well-formed stores. -/
def flatStatuses (s : State) : List PlanStatusWithID :=
  s.componentStateByComponent.flatMap fun p =>
    p.2.executionIDHistory.flatMap fun id =>
      match mapLookup p.2.executionsByID id with
      | none => []
      | some e => e.history.map (statusEntry e)

/-- The recency of a component, for reading the claim "all entries of the
newest component come first": the timestamp of the newest status of the
component's newest execution's newest plan (0 when absent). -/
def State.componentRecency (s : State) (name : String) : Nat :=
  match mapLookup s.componentStateByComponent name with
  | none => 0
  | some cs =>
    match cs.lastExecution? with
    | none => 0
    | some e =>
      match e.newestStatus? with
      | none => 0
      | some st => st.timestamp

/-- The cross-component ordering asserted by the claim about the default
`ListPlanStatuses`: in the emitted list, every entry of a more recent
component precedes every entry of a less recent one (entries are grouped by
component, newest component first). -/
def claimListOrderedByComponentRecency (s : State) : Prop :=
  ∀ l, s.listPlanStatuses false = some (.ok l) →
    l.Pairwise fun x y =>
      s.componentRecency x.componentName ≥ s.componentRecency y.componentName

/-- A decidable well-formedness check used as a hypothesis by several
theorems: unique component keys, and for every component a non-empty id
history whose every id is bound in the executions map, unique execution
keys, and non-empty plan and status histories. -/
def State.wellFormedB (s : State) : Bool :=
  ((s.componentStateByComponent.map Prod.fst).Nodup : Bool) &&
  s.componentStateByComponent.all fun p =>
    (! p.2.executionIDHistory.isEmpty) &&
    ((p.2.executionsByID.map Prod.fst).Nodup : Bool) &&
    (p.2.executionIDHistory.all fun id => (mapLookup p.2.executionsByID id).isSome) &&
    (p.2.executionsByID.all fun q =>
      (! q.2.history.isEmpty) &&
      q.2.history.all fun pws => ! pws.statusHistory.isEmpty)

/-! ### The store invariant, and concrete stores used by witnesses and counterexamples -/

/-- The per-execution portion of the store invariant: a non-empty plan
history whose statuses are non-empty, whose non-newest plans all have a
Failed newest status, and whose every plan entered with an InProgress
status. -/
def ExecInv (e : stateExecution) : Prop :=
  e.history ≠ [] ∧
  (∀ pws ∈ e.history, pws.statusHistory ≠ []) ∧
  (∀ pws ∈ e.history.tail,
    ∃ st, pws.statusHistory.head? = some st ∧ st.state = .failed) ∧
  (∀ pws ∈ e.history,
    ∃ st, pws.statusHistory.getLast? = some st ∧ st.state = .inProgress)

/-- The per-component portion of the store invariant. -/
def CompInv (cs : componentState) : Prop :=
  cs.executionIDHistory ≠ [] ∧
  (cs.executionsByID.map Prod.fst).Nodup ∧
  (∀ id ∈ cs.executionIDHistory, (mapLookup cs.executionsByID id).isSome = true) ∧
  (∀ q ∈ cs.executionsByID, ExecInv q.2)

/-- The store invariant maintained by every lifecycle notification. -/
def StoreInv (s : State) : Prop :=
  (s.componentStateByComponent.map Prod.fst).Nodup ∧
  ∀ p ∈ s.componentStateByComponent, CompInv p.2

/-- The first plan of the example execution. -/
def examplePlanA : Plan := ⟨2, 1, "mybase", []⟩

/-- The replacement plan of the example execution. -/
def examplePlanB : Plan := ⟨3, 1, "mybase", []⟩

/-- The store after `StartExecution` registered execution 1 with plan 2. -/
def exampleStore1 : State :=
  ⟨[("mybase", ⟨[1],
    [(1, ⟨1, "mybase", [⟨examplePlanA, [⟨.inProgress, 10, none⟩]⟩]⟩)]⟩)]⟩

/-- The store after plan 2 was marked Failed with reason "drift". -/
def exampleStore2 : State :=
  ⟨[("mybase", ⟨[1],
    [(1, ⟨1, "mybase",
      [⟨examplePlanA, [⟨.failed, 20, some "drift"⟩, ⟨.inProgress, 10, none⟩]⟩]⟩)]⟩)]⟩

/-- The store after replan plan 3 was registered InProgress. -/
def exampleStore3 : State :=
  ⟨[("mybase", ⟨[1],
    [(1, ⟨1, "mybase",
      [⟨examplePlanB, [⟨.inProgress, 30, none⟩]⟩,
       ⟨examplePlanA, [⟨.failed, 20, some "drift"⟩, ⟨.inProgress, 10, none⟩]⟩]⟩)]⟩)]⟩

/-- Component "a": one execution (id 1) whose only plan (id 2) stopped at
time 1. -/
def exC8ExecA : stateExecution :=
  ⟨1, "a", [⟨⟨2, 1, "a", []⟩, [⟨.stopped, 1, none⟩]⟩]⟩

/-- Component "b": one execution (id 3) whose only plan (id 4) has been in
progress since time 2 — "b" is the more recently active component. -/
def exC8ExecB : stateExecution :=
  ⟨3, "b", [⟨⟨4, 3, "b", []⟩, [⟨.inProgress, 2, none⟩]⟩]⟩

/-- A store holding both components, "a" registered before "b". -/
def exC8Store : State :=
  ⟨[("a", ⟨[1], [(1, exC8ExecA)]⟩), ("b", ⟨[3], [(3, exC8ExecB)]⟩)]⟩

/-- An execution whose only plan stopped at time 5 (terminal, old). -/
def exC7Stopped : stateExecution :=
  ⟨1, "mybase", [⟨⟨2, 1, "mybase", []⟩,
    [⟨.stopped, 5, none⟩, ⟨.inProgress, 1, none⟩]⟩]⟩

/-- An execution whose only plan is still in progress since time 6. -/
def exC7Active : stateExecution :=
  ⟨3, "mybase", [⟨⟨4, 3, "mybase", []⟩, [⟨.inProgress, 6, none⟩]⟩]⟩

/-- The componentState holding both executions, newest (3) first. -/
def exC7CS : componentState :=
  ⟨[3, 1], [(3, exC7Active), (1, exC7Stopped)]⟩

/-- The store for the TTL witness. -/
def exC7Store : State := ⟨[("mybase", exC7CS)]⟩

/-! ### Association-map lemmas -/

theorem mapLookup_insert_self {κ α : Type} [DecidableEq κ] (m : List (κ × α))
    (k : κ) (v : α) : mapLookup (mapInsert m k v) k = some v := by
  induction m with
  | nil => simp [mapInsert, mapLookup]
  | cons p rest ih =>
    by_cases h : p.1 = k
    · simp [mapInsert, h, mapLookup]
    · simp [mapInsert, h, mapLookup, ih]

theorem mapLookup_insert_ne {κ α : Type} [DecidableEq κ] (m : List (κ × α))
    {k k' : κ} (v : α) (h : k' ≠ k) :
    mapLookup (mapInsert m k v) k' = mapLookup m k' := by
  have hkk : k ≠ k' := Ne.symm h
  induction m with
  | nil => simp [mapInsert, mapLookup, hkk]
  | cons p rest ih =>
    by_cases hp : p.1 = k
    · simp [mapInsert, hp, mapLookup, hkk]
    · simp [mapInsert, hp, mapLookup, ih]

theorem mapLookup_mem {κ α : Type} [DecidableEq κ] {m : List (κ × α)} {k : κ}
    {v : α} (h : mapLookup m k = some v) : (k, v) ∈ m := by
  induction m with
  | nil => simp [mapLookup] at h
  | cons p rest ih =>
    by_cases hp : p.1 = k
    · rw [mapLookup, if_pos hp] at h
      have hpv : p = (k, v) := by
        obtain ⟨p1, p2⟩ := p
        cases h
        simp only at hp
        rw [hp]
      exact hpv ▸ List.mem_cons_self _ _
    · rw [mapLookup, if_neg hp] at h
      exact List.mem_cons_of_mem _ (ih h)

theorem keys_mapInsert_subset {κ α : Type} [DecidableEq κ] {m : List (κ × α)}
    {k a : κ} {v : α} (h : a ∈ (mapInsert m k v).map Prod.fst) :
    a ∈ m.map Prod.fst ∨ a = k := by
  induction m with
  | nil =>
    right
    simpa [mapInsert] using h
  | cons p rest ih =>
    by_cases hp : p.1 = k
    · rw [mapInsert, if_pos hp, List.map_cons, List.mem_cons] at h
      rcases h with h | h
      · right; exact h
      · left; rw [List.map_cons]; exact List.mem_cons_of_mem _ h
    · rw [mapInsert, if_neg hp, List.map_cons, List.mem_cons] at h
      rcases h with h | h
      · left; rw [List.map_cons]; exact h ▸ List.mem_cons_self _ _
      · rcases ih h with h' | h'
        · left; rw [List.map_cons]; exact List.mem_cons_of_mem _ h'
        · right; exact h'

theorem keys_mapInsert_nodup {κ α : Type} [DecidableEq κ] {m : List (κ × α)}
    (k : κ) (v : α) (h : (m.map Prod.fst).Nodup) :
    ((mapInsert m k v).map Prod.fst).Nodup := by
  induction m with
  | nil => simp [mapInsert]
  | cons p rest ih =>
    rw [List.map_cons, List.nodup_cons] at h
    obtain ⟨hp, hrest⟩ := h
    by_cases hpk : p.1 = k
    · rw [mapInsert, if_pos hpk, List.map_cons, List.nodup_cons]
      exact ⟨hpk ▸ hp, hrest⟩
    · rw [mapInsert, if_neg hpk, List.map_cons, List.nodup_cons]
      refine ⟨?_, ih hrest⟩
      intro hmem
      rcases keys_mapInsert_subset hmem with h' | h'
      · exact hp h'
      · exact hpk h'

theorem mem_mapInsert {κ α : Type} [DecidableEq κ] {m : List (κ × α)}
    {k : κ} {v : α} {q : κ × α} (hnd : (m.map Prod.fst).Nodup)
    (h : q ∈ mapInsert m k v) : q = (k, v) ∨ (q ∈ m ∧ q.1 ≠ k) := by
  induction m with
  | nil =>
    left
    simpa [mapInsert] using h
  | cons p rest ih =>
    rw [List.map_cons, List.nodup_cons] at hnd
    obtain ⟨hp, hrest⟩ := hnd
    by_cases hpk : p.1 = k
    · rw [mapInsert, if_pos hpk, List.mem_cons] at h
      rcases h with h | h
      · left; exact h
      · right
        refine ⟨List.mem_cons_of_mem _ h, ?_⟩
        intro hq
        exact hp (hpk ▸ hq ▸ List.mem_map_of_mem Prod.fst h)
    · rw [mapInsert, if_neg hpk, List.mem_cons] at h
      rcases h with h | h
      · right
        exact ⟨h ▸ List.mem_cons_self _ _, h ▸ hpk⟩
      · rcases ih hrest h with h' | h'
        · left; exact h'
        · right; exact ⟨List.mem_cons_of_mem _ h'.1, h'.2⟩

theorem mapLookup_filter_of_kept {κ α : Type} [DecidableEq κ]
    {m : List (κ × α)} {k : κ} {v : α} {p : κ × α → Bool}
    (h : mapLookup m k = some v) (hp : p (k, v) = true) :
    mapLookup (m.filter p) k = some v := by
  induction m with
  | nil => simp [mapLookup] at h
  | cons q rest ih =>
    by_cases hq : q.1 = k
    · rw [mapLookup, if_pos hq] at h
      have hqv : q = (k, v) := by
        obtain ⟨q1, q2⟩ := q
        cases h
        simp only at hq
        rw [hq]
      subst hqv
      rw [List.filter_cons, if_pos hp, mapLookup, if_pos rfl]
    · rw [mapLookup, if_neg hq] at h
      rw [List.filter_cons]
      by_cases hqp : p q = true
      · rw [if_pos hqp, mapLookup, if_neg hq]
        exact ih h
      · rw [if_neg hqp]
        exact ih h

theorem mapLookup_eq_none_of_key_not_mem {κ α : Type} [DecidableEq κ]
    {m : List (κ × α)} {k : κ} (h : k ∉ m.map Prod.fst) :
    mapLookup m k = none := by
  induction m with
  | nil => rfl
  | cons q rest ih =>
    rw [List.map_cons, List.mem_cons, not_or] at h
    rw [mapLookup, if_neg (fun e => h.1 e.symm)]
    exact ih h.2

theorem mapLookup_filter_of_dropped {κ α : Type} [DecidableEq κ]
    {m : List (κ × α)} {k : κ} {v : α} {p : κ × α → Bool}
    (hnd : (m.map Prod.fst).Nodup)
    (h : mapLookup m k = some v) (hp : p (k, v) = false) :
    mapLookup (m.filter p) k = none := by
  induction m with
  | nil => simp [mapLookup] at h
  | cons q rest ih =>
    rw [List.map_cons, List.nodup_cons] at hnd
    obtain ⟨hq1, hrest⟩ := hnd
    by_cases hq : q.1 = k
    · rw [mapLookup, if_pos hq] at h
      have hqv : q = (k, v) := by
        obtain ⟨q1, q2⟩ := q
        cases h
        simp only at hq
        rw [hq]
      subst hqv
      rw [List.filter_cons, if_neg (by rw [hp]; exact Bool.false_ne_true)]
      apply mapLookup_eq_none_of_key_not_mem
      intro hmem
      rcases List.mem_map.mp hmem with ⟨q', hq', hq'k⟩
      have hmem' : q' ∈ rest := List.mem_of_mem_filter hq'
      have hmem'' : q'.1 ∈ rest.map Prod.fst := List.mem_map_of_mem Prod.fst hmem'
      exact hq1 (hq'k ▸ hmem'')
    · rw [mapLookup, if_neg hq] at h
      rw [List.filter_cons]
      by_cases hqp : p q = true
      · rw [if_pos hqp, mapLookup, if_neg hq]
        exact ih hrest h
      · rw [if_neg hqp]
        exact ih hrest h

theorem getLast?_cons_of_ne_nil {α : Type} {l : List α} (a : α) (h : l ≠ []) :
    (a :: l).getLast? = l.getLast? := by
  cases l with
  | nil => exact absurd rfl h
  | cons b rest => simp [List.getLast?_cons_cons]

/-! ### The store invariant and its preservation -/

theorem storeInv_insert {s : State} {name : String} {cs : componentState}
    (inv : StoreInv s) (hcs : CompInv cs) :
    StoreInv ⟨mapInsert s.componentStateByComponent name cs⟩ := by
  obtain ⟨hnd, hall⟩ := inv
  refine ⟨keys_mapInsert_nodup name cs hnd, ?_⟩
  intro p hp
  rcases mem_mapInsert hnd hp with h | ⟨h, -⟩
  · cases h; exact hcs
  · exact hall p h

/-! ### Characterizations of the mutation operations -/

theorem updateStateStatusUpdate_cases {s s' : State} {msg : stateUpdateMsg}
    (h : s.updateStateStatusUpdate msg = some s') :
    s' = s ∨
      ∃ cs e lpws,
        msg.planStatus.state.isTerminal = true ∧
        mapLookup s.componentStateByComponent msg.componentName = some cs ∧
        mapLookup cs.executionsByID msg.executionID = some e ∧
        e.history.head? = some lpws ∧
        lpws.plan.id = msg.planID ∧
        s' = ⟨mapInsert s.componentStateByComponent msg.componentName
          ⟨cs.executionIDHistory,
            mapInsert cs.executionsByID msg.executionID
              ⟨e.id, e.componentName,
                ⟨lpws.plan, msg.planStatus :: lpws.statusHistory⟩ ::
                  e.history.tail⟩⟩⟩ := by
  unfold State.updateStateStatusUpdate at h
  split at h
  · left; exact (Option.some.inj h).symm
  · rename_i hterm
    split at h
    · left; exact (Option.some.inj h).symm
    · rename_i cs hcs
      split at h
      · cases h
      · rename_i e he
        split at h
        · cases h
        · rename_i lpws hl
          split at h
          · left; exact (Option.some.inj h).symm
          · rename_i hid
            right
            exact ⟨cs, e, lpws, by simpa using hterm, hcs, he, hl,
              by simpa using hid, (Option.some.inj h).symm⟩

theorem updateStateStatusUpdate_accepted {s : State} {msg : stateUpdateMsg}
    {cs : componentState} {e : stateExecution} {lpws : PlanWithStatus}
    (hterm : msg.planStatus.state.isTerminal = true)
    (hcs : mapLookup s.componentStateByComponent msg.componentName = some cs)
    (he : mapLookup cs.executionsByID msg.executionID = some e)
    (hl : e.history.head? = some lpws)
    (hid : lpws.plan.id = msg.planID) :
    s.updateStateStatusUpdate msg =
      some ⟨mapInsert s.componentStateByComponent msg.componentName
        ⟨cs.executionIDHistory,
          mapInsert cs.executionsByID msg.executionID
            ⟨e.id, e.componentName,
              ⟨lpws.plan, msg.planStatus :: lpws.statusHistory⟩ ::
                e.history.tail⟩⟩⟩ := by
  unfold State.updateStateStatusUpdate
  rw [if_neg (by simp [hterm]), hcs]
  simp only [he, hl, hid]
  rw [if_neg (by simp)]

theorem updateStateNewPlan_accepted {s : State} {msg : newPlanMsg}
    {cs : componentState} {e : stateExecution}
    (hst : msg.planStatus.state = .inProgress)
    (hcs : mapLookup s.componentStateByComponent msg.plan.componentName = some cs)
    (hhead : cs.executionIDHistory.head? = some msg.plan.executionID)
    (he : mapLookup cs.executionsByID msg.plan.executionID = some e) :
    s.updateStateNewPlan msg =
      some ⟨mapInsert s.componentStateByComponent msg.plan.componentName
        ⟨cs.executionIDHistory,
          mapInsert cs.executionsByID msg.plan.executionID
            ⟨e.id, e.componentName,
              ⟨msg.plan, [msg.planStatus]⟩ :: e.history⟩⟩⟩ := by
  unfold State.updateStateNewPlan
  rw [if_neg (by simp [hst]), hcs]
  simp only [hhead, he]
  rw [if_neg (by simp)]

theorem lastPlanOfExecutionFailed_spec {s : State} {name : String} {execId : Nat}
    (h : s.lastPlanOfExecutionFailed name execId = true) :
    ∃ cs e pws st,
      mapLookup s.componentStateByComponent name = some cs ∧
      mapLookup cs.executionsByID execId = some e ∧
      e.history.head? = some pws ∧
      pws.statusHistory.head? = some st ∧
      st.state = .failed := by
  unfold State.lastPlanOfExecutionFailed at h
  split at h
  · cases h
  · rename_i cs hcs
    split at h
    · cases h
    · rename_i e he
      split at h
      · cases h
      · rename_i pws hpws
        split at h
        · cases h
        · rename_i st hst
          exact ⟨cs, e, pws, st, hcs, he, hpws, hst, by simpa using h⟩

/-! ### Invariant preservation -/

theorem storeInv_statusUpdate {s s' : State} {msg : stateUpdateMsg}
    (inv : StoreInv s) (h : s.updateStateStatusUpdate msg = some s') :
    StoreInv s' := by
  rcases updateStateStatusUpdate_cases h with rfl | ⟨cs, e, lpws, hterm, hcs, he, hl, hid, rfl⟩
  · exact inv
  obtain ⟨hnd, hall⟩ := inv
  obtain ⟨hne, hnd2, hids, hexecs⟩ := hall _ (mapLookup_mem hcs)
  obtain ⟨hhist, hstat, htail, hlast⟩ := hexecs _ (mapLookup_mem he)
  have hcons : e.history = lpws :: e.history.tail := by
    cases hh : e.history with
    | nil => rw [hh] at hl; cases hl
    | cons a l =>
      rw [hh] at hl
      cases hl
      rw [List.tail_cons]
  refine storeInv_insert ⟨hnd, hall⟩ ⟨hne, keys_mapInsert_nodup _ _ hnd2, ?_, ?_⟩
  · intro id hid'
    by_cases hq : id = msg.executionID
    · subst hq; rw [mapLookup_insert_self]; rfl
    · rw [mapLookup_insert_ne _ _ hq]; exact hids id hid'
  · intro q hq
    rcases mem_mapInsert hnd2 hq with rfl | ⟨hq', -⟩
    · refine ⟨by simp, ?_, ?_, ?_⟩
      · intro pws hpws
        rcases List.mem_cons.mp hpws with rfl | hpws'
        · simp
        · exact hstat _ (by rw [hcons]; exact List.mem_cons_of_mem _ hpws')
      · intro pws hpws
        rw [List.tail_cons] at hpws
        exact htail _ hpws
      · intro pws hpws
        rcases List.mem_cons.mp hpws with rfl | hpws'
        · have hmem : lpws ∈ e.history := by rw [hcons]; exact List.mem_cons_self _ _
          obtain ⟨st, hst, hstate⟩ := hlast _ hmem
          exact ⟨st, by rw [getLast?_cons_of_ne_nil _ (hstat _ hmem)]; exact hst, hstate⟩
        · exact hlast _ (by rw [hcons]; exact List.mem_cons_of_mem _ hpws')
    · exact hexecs _ hq'

theorem updateStateNewPlan_cases {s s' : State} {msg : newPlanMsg}
    (h : s.updateStateNewPlan msg = some s') :
    s' = s ∨
      ∃ cs,
        msg.planStatus.state = .inProgress ∧
        mapLookup s.componentStateByComponent msg.plan.componentName = some cs ∧
        cs.executionIDHistory.head? = some msg.plan.executionID ∧
        ((mapLookup cs.executionsByID msg.plan.executionID = none ∧
          s' = ⟨mapInsert s.componentStateByComponent msg.plan.componentName
            ⟨cs.executionIDHistory,
              mapInsert cs.executionsByID msg.plan.executionID
                ⟨zeroStateExecution.id, zeroStateExecution.componentName,
                  [⟨msg.plan, [msg.planStatus]⟩]⟩⟩⟩) ∨
         (∃ e, mapLookup cs.executionsByID msg.plan.executionID = some e ∧
          s' = ⟨mapInsert s.componentStateByComponent msg.plan.componentName
            ⟨cs.executionIDHistory,
              mapInsert cs.executionsByID msg.plan.executionID
                ⟨e.id, e.componentName,
                  ⟨msg.plan, [msg.planStatus]⟩ :: e.history⟩⟩⟩)) := by
  unfold State.updateStateNewPlan at h
  split at h
  · left; exact (Option.some.inj h).symm
  · rename_i hst
    split at h
    · cases h
    · rename_i cs hcs
      split at h
      · cases h
      · rename_i activeId hhead
        split at h
        · left; exact (Option.some.inj h).symm
        · rename_i heq
          have heq' : msg.plan.executionID = activeId := by simpa using heq
          split at h
          · rename_i hnone
            right
            exact ⟨cs, by simpa using hst, hcs, by rw [heq']; exact hhead,
              Or.inl ⟨hnone, (Option.some.inj h).symm⟩⟩
          · rename_i e he
            right
            exact ⟨cs, by simpa using hst, hcs, by rw [heq']; exact hhead,
              Or.inr ⟨e, he, (Option.some.inj h).symm⟩⟩

theorem storeInv_newPlan {s s' : State} {plan : Plan} {t : Nat}
    (inv : StoreInv s)
    (hfail : s.lastPlanOfExecutionFailed plan.componentName plan.executionID = true)
    (h : s.notifyStateNewPlan plan t = some s') : StoreInv s' := by
  obtain ⟨cs0, e0, pws0, st0, hcs0, he0, hpws0, hst0, hfailed⟩ :=
    lastPlanOfExecutionFailed_spec hfail
  rcases updateStateNewPlan_cases h with rfl | ⟨cs, hst, hcs, hhead, hbr⟩
  · exact inv
  rw [hcs0] at hcs
  obtain rfl := Option.some.inj hcs
  rcases hbr with ⟨hnone, rfl⟩ | ⟨e, he, rfl⟩
  · rw [he0] at hnone; cases hnone
  rw [he0] at he
  obtain rfl := Option.some.inj he
  obtain ⟨hnd, hall⟩ := inv
  obtain ⟨hne, hnd2, hids, hexecs⟩ := hall _ (mapLookup_mem hcs0)
  obtain ⟨hhist, hstat, htail, hlast⟩ := hexecs _ (mapLookup_mem he0)
  have hcons : e0.history = pws0 :: e0.history.tail := by
    cases hh : e0.history with
    | nil => rw [hh] at hpws0; cases hpws0
    | cons a l =>
      rw [hh] at hpws0
      cases hpws0
      rw [List.tail_cons]
  refine storeInv_insert ⟨hnd, hall⟩ ⟨hne, keys_mapInsert_nodup _ _ hnd2, ?_, ?_⟩
  · intro id hid'
    by_cases hq : id = plan.executionID
    · subst hq; rw [mapLookup_insert_self]; rfl
    · rw [mapLookup_insert_ne _ _ hq]; exact hids id hid'
  · intro q hq
    rcases mem_mapInsert hnd2 hq with rfl | ⟨hq', -⟩
    · refine ⟨by simp, ?_, ?_, ?_⟩
      · intro pws hpws
        rcases List.mem_cons.mp hpws with rfl | hpws'
        · simp
        · exact hstat _ hpws'
      · intro pws hpws
        rw [List.tail_cons] at hpws
        rw [hcons] at hpws
        rcases List.mem_cons.mp hpws with rfl | hpws'
        · exact ⟨st0, hst0, hfailed⟩
        · exact htail _ hpws'
      · intro pws hpws
        rcases List.mem_cons.mp hpws with rfl | hpws'
        · exact ⟨_, by simp, hst⟩
        · exact hlast _ hpws'
    · exact hexecs _ hq'

theorem mapInsert_mapInsert {κ α : Type} [DecidableEq κ] (m : List (κ × α))
    (k : κ) (v v' : α) :
    mapInsert (mapInsert m k v) k v' = mapInsert m k v' := by
  induction m with
  | nil => simp [mapInsert]
  | cons p rest ih =>
    by_cases hp : p.1 = k
    · simp [mapInsert, hp]
    · simp [mapInsert, hp, ih]

theorem updateStateNewExecution_newExec {s : State} {newE : stateExecution}
    {cs : componentState}
    (hcs : mapLookup s.componentStateByComponent newE.componentName = some cs)
    (hfresh : mapLookup cs.executionsByID newE.id = none) :
    s.updateStateNewExecution newE =
      ⟨mapInsert s.componentStateByComponent newE.componentName
        ⟨newE.id :: cs.executionIDHistory,
          mapInsert cs.executionsByID newE.id newE⟩⟩ := by
  unfold State.updateStateNewExecution
  rw [hcs]
  simp only [hfresh]

theorem updateStateNewExecution_newComponent {s : State} {newE : stateExecution}
    (hcs : mapLookup s.componentStateByComponent newE.componentName = none) :
    s.updateStateNewExecution newE =
      ⟨mapInsert s.componentStateByComponent newE.componentName
        ⟨[newE.id], [(newE.id, newE)]⟩⟩ := by
  unfold State.updateStateNewExecution
  rw [hcs]

theorem execInv_singlePlan (id : Nat) (nm : String) (plan : Plan)
    (st : PlanStatus) (hst : st.state = .inProgress) :
    ExecInv ⟨id, nm, [⟨plan, [st]⟩]⟩ := by
  refine ⟨by simp, ?_, ?_, ?_⟩
  · intro pws hpws
    rcases List.mem_cons.mp hpws with rfl | h0
    · simp
    · cases h0
  · intro pws hpws
    rw [List.tail_cons] at hpws
    cases hpws
  · intro pws hpws
    rcases List.mem_cons.mp hpws with rfl | h0
    · exact ⟨st, by simp, hst⟩
    · cases h0

theorem storeInv_start {s s' : State} {name : String} {execId : Nat}
    {plan : Plan} {t : Nat}
    (inv : StoreInv s)
    (hfresh : s.hasExecutionID execId = false)
    (hpid : plan.executionID = execId) (hpn : plan.componentName = name)
    (h : s.notifyStateNewExecution ⟨execId, name, []⟩ plan t = some s') :
    StoreInv s' := by
  subst hpid
  subst hpn
  obtain ⟨hnd, hall⟩ := inv
  cases hcs : mapLookup s.componentStateByComponent plan.componentName with
  | some cs =>
    obtain ⟨hne, hnd2, hids, hexecs⟩ := hall _ (mapLookup_mem hcs)
    have hfreshCs : (decide (plan.executionID ∈ cs.executionIDHistory) ||
        (mapLookup cs.executionsByID plan.executionID).isSome) = false := by
      unfold State.hasExecutionID at hfresh
      rw [List.any_eq_false] at hfresh
      have h0 := hfresh _ (mapLookup_mem hcs)
      rw [Bool.not_eq_true] at h0
      exact h0
    rw [Bool.or_eq_false_iff] at hfreshCs
    have hxnone : mapLookup cs.executionsByID plan.executionID = none := by
      cases hx : mapLookup cs.executionsByID plan.executionID with
      | none => rfl
      | some _ => rw [hx] at hfreshCs; simp at hfreshCs
    have hnotMem : plan.executionID ∉ cs.executionIDHistory := by
      have h1 := hfreshCs.1
      simpa using h1
    have hcomp : s.notifyStateNewExecution
        ⟨plan.executionID, plan.componentName, []⟩ plan t =
        some ⟨mapInsert s.componentStateByComponent plan.componentName
          ⟨plan.executionID :: cs.executionIDHistory,
            mapInsert cs.executionsByID plan.executionID
              ⟨plan.executionID, plan.componentName,
                [⟨plan, [⟨.inProgress, t, none⟩]⟩]⟩⟩⟩ := by
      unfold State.notifyStateNewExecution
      rw [updateStateNewExecution_newExec hcs hxnone]
      unfold State.updateStateNewPlan
      simp only [mapLookup_insert_self, mapInsert_mapInsert, List.head?_cons]
      rw [if_neg (by simp), if_neg (by simp)]
    rw [hcomp] at h
    obtain rfl := (Option.some.inj h).symm
    refine storeInv_insert ⟨hnd, hall⟩
      ⟨by simp, keys_mapInsert_nodup _ _ hnd2, ?_, ?_⟩
    · intro id hid'
      rcases List.mem_cons.mp hid' with rfl | hid''
      · rw [mapLookup_insert_self]; rfl
      · have hneq : id ≠ plan.executionID := fun hq => hnotMem (hq ▸ hid'')
        rw [mapLookup_insert_ne _ _ hneq]
        exact hids id hid''
    · intro q hq
      rcases mem_mapInsert hnd2 hq with rfl | ⟨hq', -⟩
      · exact execInv_singlePlan _ _ _ _ rfl
      · exact hexecs _ hq'
  | none =>
    have hcomp : s.notifyStateNewExecution
        ⟨plan.executionID, plan.componentName, []⟩ plan t =
        some ⟨mapInsert s.componentStateByComponent plan.componentName
          ⟨[plan.executionID],
            [(plan.executionID, ⟨plan.executionID, plan.componentName,
              [⟨plan, [⟨.inProgress, t, none⟩]⟩]⟩)]⟩⟩ := by
      unfold State.notifyStateNewExecution
      rw [updateStateNewExecution_newComponent hcs]
      unfold State.updateStateNewPlan
      simp only [mapLookup_insert_self, mapInsert_mapInsert, List.head?_cons]
      rw [if_neg (by simp), if_neg (by simp)]
      simp [mapLookup, mapInsert]
    rw [hcomp] at h
    obtain rfl := (Option.some.inj h).symm
    refine storeInv_insert ⟨hnd, hall⟩ ⟨by simp, by simp, ?_, ?_⟩
    · intro id hid'
      rcases List.mem_cons.mp hid' with rfl | hid''
      · simp [mapLookup]
      · cases hid''
    · intro q hq
      rcases List.mem_cons.mp hq with rfl | h0
      · exact execInv_singlePlan _ _ _ _ rfl
      · cases h0

theorem reachable_storeInv {s : State} (h : Reachable s) : StoreInv s := by
  induction h with
  | init =>
    refine ⟨List.nodup_nil, ?_⟩
    intro p hp
    cases hp
  | start hr hval hfresh hpid hpn hstep ih =>
    exact storeInv_start ih hfresh hpid hpn hstep
  | statusUpdate hr hstep ih => exact storeInv_statusUpdate ih hstep
  | newPlan hr hfail hstep ih => exact storeInv_newPlan ih hfail hstep

/-! ### Observation lemmas: the listings on well-formed stores -/

theorem mapLookup_of_mem_nodup {κ α : Type} [DecidableEq κ] {m : List (κ × α)}
    {k : κ} {v : α} (hnd : (m.map Prod.fst).Nodup) (h : (k, v) ∈ m) :
    mapLookup m k = some v := by
  induction m with
  | nil => cases h
  | cons p rest ih =>
    rw [List.map_cons, List.nodup_cons] at hnd
    obtain ⟨hp, hrest⟩ := hnd
    rcases List.mem_cons.mp h with rfl | h'
    · rw [mapLookup, if_pos rfl]
    · have hpk : p.1 ≠ k := by
        intro he
        exact hp (he ▸ List.mem_map_of_mem Prod.fst h')
      rw [mapLookup, if_neg hpk]
      exact ih hrest h'

theorem mapM_pwsEntry_eq (e : stateExecution) (l : List PlanWithStatus)
    (h : ∀ pws ∈ l, pws.statusHistory ≠ []) :
    l.mapM (pwsEntry e) = some (l.map (statusEntry e)) := by
  induction l with
  | nil => rfl
  | cons a rest ih =>
    have ha : a.statusHistory ≠ [] := h a (List.mem_cons_self _ _)
    have hA : pwsEntry e a = some (statusEntry e a) := by
      cases hs : a.statusHistory with
      | nil => exact absurd hs ha
      | cons st tl =>
        unfold pwsEntry statusEntry
        rw [hs]
        rfl
    rw [List.mapM_cons, hA, ih (fun pws hm => h pws (List.mem_cons_of_mem _ hm))]
    rfl

theorem execEntries_eq (e : stateExecution)
    (h : ∀ pws ∈ e.history, pws.statusHistory ≠ []) :
    execEntries e = some (e.history.map (statusEntry e)) :=
  mapM_pwsEntry_eq e e.history h

theorem csEntries_eq (cs : componentState) (l : List Nat)
    (hids : ∀ id ∈ l, (mapLookup cs.executionsByID id).isSome = true)
    (hst : ∀ q ∈ cs.executionsByID, ∀ pws ∈ q.2.history, pws.statusHistory ≠ []) :
    csEntries cs l = some (.ok (l.flatMap fun id =>
      match mapLookup cs.executionsByID id with
      | none => []
      | some e => e.history.map (statusEntry e))) := by
  induction l with
  | nil => rfl
  | cons id rest ih =>
    cases he : mapLookup cs.executionsByID id with
    | none =>
      have h0 := hids id (List.mem_cons_self _ _)
      rw [he] at h0
      cases h0
    | some e =>
      simp only [csEntries, he, execEntries_eq e (hst _ (mapLookup_mem he)),
        ih (fun i hm => hids i (List.mem_cons_of_mem _ hm)), List.flatMap_cons]

theorem listAllEntries_eq (comps : List (String × componentState))
    (h : ∀ p ∈ comps,
      (∀ id ∈ p.2.executionIDHistory,
        (mapLookup p.2.executionsByID id).isSome = true) ∧
      (∀ q ∈ p.2.executionsByID, ∀ pws ∈ q.2.history, pws.statusHistory ≠ [])) :
    listAllEntries comps = some (.ok (comps.flatMap fun p =>
      p.2.executionIDHistory.flatMap fun id =>
      match mapLookup p.2.executionsByID id with
      | none => []
      | some e => e.history.map (statusEntry e))) := by
  induction comps with
  | nil => rfl
  | cons p rest ih =>
    obtain ⟨h1, h2⟩ := h p (List.mem_cons_self _ _)
    unfold listAllEntries
    rw [csEntries_eq p.2 p.2.executionIDHistory h1 h2,
      ih (fun q hm => h q (List.mem_cons_of_mem _ hm))]
    simp

/-- On a store satisfying the invariant, the default ListPlanStatuses neither
panics nor reports corruption: it returns exactly the `flatStatuses` listing. -/
theorem listPlanStatuses_eq_flatStatuses {s : State} (inv : StoreInv s) :
    s.listPlanStatuses false = some (.ok (flatStatuses s)) := by
  unfold State.listPlanStatuses flatStatuses
  rw [if_neg (by simp)]
  exact listAllEntries_eq s.componentStateByComponent fun p hp => by
    obtain ⟨-, -, hids, hexecs⟩ := inv.2 p hp
    exact ⟨hids, fun q hq pws hpws => ((hexecs q hq).2.1) pws hpws⟩

theorem lastExecution_eq {cs : componentState} {lastId : Nat}
    {e : stateExecution}
    (hhead : cs.executionIDHistory.head? = some lastId)
    (he : mapLookup cs.executionsByID lastId = some e) :
    cs.lastExecution? = some e := by
  unfold componentState.lastExecution? componentState.lastExecutionID?
  rw [hhead]
  simp only [Option.map_some', he, Option.getD_some]

/-- Computation of `activeExecution` once the store is resolved at the
component: the Go reads `lastExecution().history[0].StatusHistory[0]` and
compares with the terminal-state set. -/
theorem activeExecution_eq {s : State} {name : String} {cs : componentState}
    {lastId : Nat} {e : stateExecution} {pws : PlanWithStatus} {st : PlanStatus}
    (hcs : mapLookup s.componentStateByComponent name = some cs)
    (hhead : cs.executionIDHistory.head? = some lastId)
    (he : mapLookup cs.executionsByID lastId = some e)
    (hpws : e.history.head? = some pws)
    (hst : pws.statusHistory.head? = some st) :
    s.activeExecution name =
      if st.state.isTerminal then some (.error .notFound) else some (.ok e) := by
  unfold State.activeExecution componentState.lastExecution?
    componentState.lastExecutionID?
  simp only [hcs, hhead, Option.map_some', he, Option.getD_some, hpws, hst]

/-! ### Small list helpers -/

theorem head?_mem {α : Type} {l : List α} {a : α} (h : l.head? = some a) :
    a ∈ l := by
  cases l with
  | nil => cases h
  | cons b t =>
    rw [List.head?_cons] at h
    cases h
    exact List.mem_cons_self _ _

theorem ne_nil_head? {α : Type} {l : List α} (h : l ≠ []) :
    ∃ a, l.head? = some a := by
  cases l with
  | nil => exact absurd rfl h
  | cons b t => exact ⟨b, rfl⟩

/-! ### Concrete stores used by witnesses and counterexamples -/

theorem reachable_exampleStore1 : Reachable exampleStore1 :=
  @Reachable.start NewState exampleStore1 "mybase" 1 examplePlanA 10
    Reachable.init rfl rfl rfl rfl rfl

theorem reachable_exampleStore2 : Reachable exampleStore2 :=
  @Reachable.statusUpdate exampleStore1 exampleStore2
    ⟨"mybase", 1, 2, ⟨.failed, 20, some "drift"⟩⟩
    reachable_exampleStore1 rfl

theorem reachable_exampleStore3 : Reachable exampleStore3 :=
  @Reachable.newPlan exampleStore2 exampleStore3 examplePlanB 30
    reachable_exampleStore2 rfl rfl

/-! ### Auxiliary results for the OnlyActivePlans listing -/

theorem listActiveEntries_isSome {s : State} (inv : StoreInv s)
    (l : List (String × componentState))
    (hsub : ∀ p ∈ l, p ∈ s.componentStateByComponent) :
    (listActiveEntries s l).isSome = true := by
  induction l with
  | nil => rfl
  | cons p rest ih =>
    have hp := hsub p (List.mem_cons_self _ _)
    have hcs : mapLookup s.componentStateByComponent p.1 = some p.2 :=
      mapLookup_of_mem_nodup inv.1 hp
    obtain ⟨hne, hnd2, hids, hexecs⟩ := inv.2 p hp
    obtain ⟨lastId, hhead⟩ := ne_nil_head? hne
    have hsome := hids lastId (head?_mem hhead)
    cases he : mapLookup p.2.executionsByID lastId with
    | none => rw [he] at hsome; cases hsome
    | some e =>
      obtain ⟨hh, hstat, -, -⟩ := hexecs _ (mapLookup_mem he)
      obtain ⟨pws, hpws⟩ := ne_nil_head? hh
      obtain ⟨st, hst⟩ := ne_nil_head? (hstat _ (head?_mem hpws))
      have hact := activeExecution_eq hcs hhead he hpws hst
      have ihrest := ih (fun q hm => hsub q (List.mem_cons_of_mem _ hm))
      by_cases hterm : st.state.isTerminal = true
      · rw [if_pos hterm] at hact
        simp only [listActiveEntries, hact]
        exact ihrest
      · rw [if_neg hterm] at hact
        simp only [listActiveEntries, hact, hpws, hst]
        cases hrest : listActiveEntries s rest with
        | none => rw [hrest] at ihrest; cases ihrest
        | some l' => rfl

/-! ### C2 and C9 -/

/-- C2: in every reachable store, every execution's non-newest plans have a
terminal newest status, and that status is the Failed one recorded by the
replan protocol; moreover every plan's oldest status (the one it was appended
with) is InProgress.  The "after the prior newest plan has been transitioned
to Failed" part of the claim is the `newPlan` constructor of `Reachable`,
read off `execution.start` (state_test.go:1509-1512). -/
theorem C2_plan_history_protocol (s : State) (h : Reachable s) :
    ∀ p ∈ s.componentStateByComponent, ∀ q ∈ p.2.executionsByID,
      (∀ pws ∈ q.2.history.tail,
        ∃ st, pws.statusHistory.head? = some st ∧
          st.state.isTerminal = true ∧ st.state = .failed) ∧
      (∀ pws ∈ q.2.history,
        ∃ st, pws.statusHistory.getLast? = some st ∧ st.state = .inProgress) := by
  have inv := reachable_storeInv h
  intro p hp q hq
  obtain ⟨-, -, htail, hlast⟩ := (inv.2 p hp).2.2.2 q hq
  refine ⟨fun pws hm => ?_, hlast⟩
  obtain ⟨st, hst, hfailed⟩ := htail pws hm
  exact ⟨st, hst, by rw [hfailed]; rfl, hfailed⟩

/-- Witness for C2 at the concrete reachable store `exampleStore3`: the
non-newest plan (plan 2) has the terminal Failed newest status, and both
plans entered with InProgress. -/
theorem C2_plan_history_protocol_witness :
    (∃ st, (⟨examplePlanA, [⟨.failed, 20, some "drift"⟩, ⟨.inProgress, 10, none⟩]⟩ :
        PlanWithStatus).statusHistory.head? = some st ∧
      st.state.isTerminal = true ∧ st.state = .failed) ∧
    (∃ st, (⟨examplePlanB, [⟨.inProgress, 30, none⟩]⟩ :
        PlanWithStatus).statusHistory.getLast? = some st ∧
      st.state = .inProgress) := by
  have h := C2_plan_history_protocol exampleStore3 reachable_exampleStore3
    ("mybase", ⟨[1], [(1, ⟨1, "mybase",
      [⟨examplePlanB, [⟨.inProgress, 30, none⟩]⟩,
       ⟨examplePlanA, [⟨.failed, 20, some "drift"⟩, ⟨.inProgress, 10, none⟩]⟩]⟩)]⟩)
    (List.mem_cons_self _ _)
    (1, ⟨1, "mybase",
      [⟨examplePlanB, [⟨.inProgress, 30, none⟩]⟩,
       ⟨examplePlanA, [⟨.failed, 20, some "drift"⟩, ⟨.inProgress, 10, none⟩]⟩]⟩)
    (List.mem_cons_self _ _)
  exact ⟨h.1 _ (List.mem_cons_self _ _), h.2 _ (List.mem_cons_self _ _)⟩

/-- C9: every reachable store is structurally well formed — non-empty
execution-id histories whose entries are all bound in the executions map,
non-empty plan histories and status histories — and consequently the
index-0 / lastExecution accesses performed by `activeExecution`,
`StopExecutionByResource`, `PlanHistory` and `ListPlanStatuses` never go out
of range (no operation returns the panic value `none`). -/
theorem C9_accesses_in_range (s : State) (h : Reachable s) :
    (∀ p ∈ s.componentStateByComponent,
      p.2.executionIDHistory ≠ [] ∧
      (∀ id ∈ p.2.executionIDHistory,
        (mapLookup p.2.executionsByID id).isSome = true) ∧
      (∀ q ∈ p.2.executionsByID, q.2.history ≠ [] ∧
        ∀ pws ∈ q.2.history, pws.statusHistory ≠ [])) ∧
    (∀ name, (mapLookup s.componentStateByComponent name).isSome = true →
      (s.activeExecution name).isSome = true ∧
      (s.stopExecutionByResource name).isSome = true ∧
      (s.planHistory name 0 false).isSome = true ∧
      (s.planHistory name 0 true).isSome = true) ∧
    (s.listPlanStatuses false).isSome = true ∧
    (s.listPlanStatuses true).isSome = true := by
  have inv := reachable_storeInv h
  refine ⟨?_, ?_, ?_, ?_⟩
  · intro p hp
    obtain ⟨hne, -, hids, hexecs⟩ := inv.2 p hp
    exact ⟨hne, hids, fun q hq => ⟨(hexecs q hq).1, (hexecs q hq).2.1⟩⟩
  · intro name hname
    cases hcs : mapLookup s.componentStateByComponent name with
    | none => rw [hcs] at hname; cases hname
    | some cs =>
      obtain ⟨hne, hnd2, hids, hexecs⟩ := inv.2 _ (mapLookup_mem hcs)
      obtain ⟨lastId, hhead⟩ := ne_nil_head? hne
      have hsome := hids lastId (head?_mem hhead)
      cases he : mapLookup cs.executionsByID lastId with
      | none => rw [he] at hsome; cases hsome
      | some e =>
        obtain ⟨hh, hstat, -, -⟩ := hexecs _ (mapLookup_mem he)
        obtain ⟨pws, hpws⟩ := ne_nil_head? hh
        obtain ⟨st, hst⟩ := ne_nil_head? (hstat _ (head?_mem hpws))
        refine ⟨?_, ?_, ?_, ?_⟩
        · rw [activeExecution_eq hcs hhead he hpws hst]
          by_cases hterm : st.state.isTerminal = true
          · rw [if_pos hterm]; rfl
          · rw [if_neg hterm]; rfl
        · unfold State.stopExecutionByResource
          simp [hcs, hhead, he]
        · unfold State.planHistory
          simp [hcs, lastExecution_eq hhead he]
        · unfold State.planHistory
          simp [hcs, lastExecution_eq hhead he]
  · rw [listPlanStatuses_eq_flatStatuses inv]
    rfl
  · unfold State.listPlanStatuses
    rw [if_pos rfl]
    have hal := listActiveEntries_isSome inv s.componentStateByComponent
      (fun p hp => hp)
    cases hl : listActiveEntries s s.componentStateByComponent with
    | none => rw [hl] at hal; cases hal
    | some l => rfl

/-- Witness for C9 at the concrete reachable store `exampleStore3`. -/
theorem C9_accesses_in_range_witness :
    (exampleStore3.activeExecution "mybase").isSome = true ∧
    (exampleStore3.stopExecutionByResource "mybase").isSome = true ∧
    (exampleStore3.planHistory "mybase" 0 false).isSome = true ∧
    (exampleStore3.planHistory "mybase" 0 true).isSome = true ∧
    (exampleStore3.listPlanStatuses false).isSome = true ∧
    (exampleStore3.listPlanStatuses true).isSome = true := by
  have h := C9_accesses_in_range exampleStore3 reachable_exampleStore3
  obtain ⟨-, hB, hC1, hC2⟩ := h
  obtain ⟨h1, h2, h3, h4⟩ := hB "mybase" rfl
  exact ⟨h1, h2, h3, h4, hC1, hC2⟩

/-! ### C1, C3, C10: StartExecution -/

/-- C1: when the component's newest execution's newest plan has a
non-terminal (InProgress) newest status, `StartExecution` fails with the
AlreadyActive error naming the existing execution's id, and the store and
uuid supply are returned unchanged. -/
theorem C1_start_rejected_when_active (s : State) (supply : Nat) (name : String)
    (po : Except Err PlanResp) (t : Nat) (cs : componentState) (lastId : Nat)
    (e : stateExecution) (pws : PlanWithStatus) (st : PlanStatus)
    (hcs : mapLookup s.componentStateByComponent name = some cs)
    (hhead : cs.executionIDHistory.head? = some lastId)
    (he : mapLookup cs.executionsByID lastId = some e)
    (hpws : e.history.head? = some pws)
    (hst : pws.statusHistory.head? = some st)
    (hip : st.state = .inProgress) :
    startExecution s supply name po t =
      some ⟨0, some (.alreadyActive e.id), s, supply⟩ := by
  unfold startExecution State.validateNoActiveExecutionID
  rw [activeExecution_eq hcs hhead he hpws hst, hip]
  rfl

/-- Witness for C1: starting on `exampleStore1`, whose execution 1 is
InProgress, is rejected with AlreadyActive 1 and mutates nothing. -/
theorem C1_start_rejected_when_active_witness :
    startExecution exampleStore1 5 "mybase" (.ok ⟨[]⟩) 99 =
      some ⟨0, some (.alreadyActive 1), exampleStore1, 5⟩ :=
  C1_start_rejected_when_active exampleStore1 5 "mybase" (.ok ⟨[]⟩) 99
    ⟨[1], [(1, ⟨1, "mybase", [⟨examplePlanA, [⟨.inProgress, 10, none⟩]⟩]⟩)]⟩
    1 ⟨1, "mybase", [⟨examplePlanA, [⟨.inProgress, 10, none⟩]⟩]⟩
    ⟨examplePlanA, [⟨.inProgress, 10, none⟩]⟩ ⟨.inProgress, 10, none⟩
    rfl rfl rfl rfl rfl rfl

/-- C3: when the factory's initial Plan fails, `StartExecution` returns
exactly that error, the store it leaves behind is the input store, and hence
PlanHistory and ListPlanStatuses observe exactly what they observed before
the call.  (The execution-id uuid was already drawn when Plan ran, so the
supply advances by one.) -/
theorem C3_plan_error_no_mutation (s : State) (supply : Nat) (name : String)
    (err : Err) (t : Nat)
    (hval : s.validateNoActiveExecutionID name = some (.ok ())) :
    startExecution s supply name (.error err) t =
      some ⟨0, some err, s, supply + 1⟩ ∧
    (∀ o, startExecution s supply name (.error err) t = some o →
      (∀ execQ lpo, o.state.planHistory name execQ lpo =
        s.planHistory name execQ lpo) ∧
      (∀ b, o.state.listPlanStatuses b = s.listPlanStatuses b)) := by
  have h1 : startExecution s supply name (.error err) t =
      some ⟨0, some err, s, supply + 1⟩ := by
    unfold startExecution
    rw [hval]
    rfl
  refine ⟨h1, ?_⟩
  intro o ho
  rw [h1] at ho
  obtain rfl := Option.some.inj ho
  exact ⟨fun _ _ => rfl, fun _ => rfl⟩

/-- Witness for C3 on the empty store (validation passes vacuously). -/
theorem C3_plan_error_no_mutation_witness :
    startExecution NewState 7 "mybase" (.error (.planningFailed "planning failed")) 3 =
      some ⟨0, some (.planningFailed "planning failed"), NewState, 8⟩ ∧
    (∀ o, startExecution NewState 7 "mybase"
        (.error (.planningFailed "planning failed")) 3 = some o →
      (∀ execQ lpo, o.state.planHistory "mybase" execQ lpo =
        NewState.planHistory "mybase" execQ lpo) ∧
      (∀ b, o.state.listPlanStatuses b = NewState.listPlanStatuses b)) :=
  C3_plan_error_no_mutation NewState 7 "mybase" (.planningFailed "planning failed") 3 rfl

/-- C10: `StartExecution` returns the nil uuid exactly when it returns an
error; on success the returned id is the freshly drawn uuid, which is
non-nil and not previously present in the store (the hypotheses are the
uuid.New() contract: the supply is non-nil and fresh). -/
theorem C10_id_iff_error (s : State) (supply : Nat) (name : String)
    (po : Except Err PlanResp) (t : Nat) (o : StartOutcome)
    (hpos : 0 < supply)
    (hfresh : s.hasExecutionID supply = false)
    (hrun : startExecution s supply name po t = some o) :
    (o.err.isSome = true ↔ o.id = 0) ∧
    (o.err = none → o.id ≠ 0 ∧ s.hasExecutionID o.id = false) := by
  unfold startExecution at hrun
  split at hrun
  · cases hrun
  · obtain rfl := Option.some.inj hrun
    exact ⟨by simp, by intro h0; cases h0⟩
  · split at hrun
    · obtain rfl := Option.some.inj hrun
      exact ⟨by simp, by intro h0; cases h0⟩
    · split at hrun
      · cases hrun
      · obtain rfl := Option.some.inj hrun
        refine ⟨?_, ?_⟩
        · simp only [Option.isSome_none]
          constructor
          · intro hf; cases hf
          · intro hid
            exact absurd hid.symm (Nat.ne_of_lt hpos)
        · intro h0
          exact ⟨fun hid => absurd hid.symm (Nat.ne_of_lt hpos), hfresh⟩

/-- Witness for C10: a successful start on the empty store returns the fresh
non-nil id 1 and leaves nothing stale. -/
theorem C10_id_iff_error_witness :
    (((⟨1, none, exampleStore1, 3⟩ : StartOutcome).err.isSome = true ↔
      (⟨1, none, exampleStore1, 3⟩ : StartOutcome).id = 0) ∧
    ((⟨1, none, exampleStore1, 3⟩ : StartOutcome).err = none →
      (⟨1, none, exampleStore1, 3⟩ : StartOutcome).id ≠ 0 ∧
      NewState.hasExecutionID (⟨1, none, exampleStore1, 3⟩ : StartOutcome).id = false)) :=
  C10_id_iff_error NewState 1 "mybase" (.ok ⟨[]⟩) 10 ⟨1, none, exampleStore1, 3⟩
    (by decide) rfl rfl

/-! ### C4: the recorded replan reason -/

/-- C4: evaluation of the reason-derivation of `execution.start`
(state_test.go:1489-1494) at the failing input.  When Execute returns
`(Replan = true, ReplanReason = "drift", err = nil)` the code records the
hardcoded constant, not "drift" (the repository's own test,
state_test.go:484, expects "drift"); when Execute's error is non-nil the
error message is used, as the claim says. -/
theorem C4_replan_reason_not_from_execute :
    replanReasonFrom none "drift" = "replan triggered without providing a reason" ∧
    replanReasonFrom none "drift" ≠ "drift" ∧
    replanReasonFrom (some "boom") "drift" = "boom" :=
  ⟨rfl, by decide, rfl⟩

/-! ### C5: invalid status-update notifications -/

/-- C5 (amended): a status update carrying a non-terminal state, or targeting
an unknown component, or targeting a non-newest plan of a known execution, is
logged and dropped — the store is unchanged and there is no panic.  (The
remaining invalid case of the claim, an unknown execution id under a known
component, panics instead: see the counterexample.) -/
theorem C5_invalid_updates_logged_and_dropped :
    ∀ (s : State) (msg : stateUpdateMsg),
      (msg.planStatus.state.isTerminal = false →
        s.updateStateStatusUpdate msg = some s) ∧
      (mapLookup s.componentStateByComponent msg.componentName = none →
        s.updateStateStatusUpdate msg = some s) ∧
      (∀ cs e pws,
        mapLookup s.componentStateByComponent msg.componentName = some cs →
        mapLookup cs.executionsByID msg.executionID = some e →
        e.history.head? = some pws →
        pws.plan.id ≠ msg.planID →
        s.updateStateStatusUpdate msg = some s) := by
  intro s msg
  refine ⟨?_, ?_, ?_⟩
  · intro hterm
    unfold State.updateStateStatusUpdate
    rw [if_pos (by simp [hterm])]
  · intro hcs
    unfold State.updateStateStatusUpdate
    by_cases hterm : msg.planStatus.state.isTerminal = true
    · rw [if_neg (by simp [hterm]), hcs]
    · rw [if_pos (by simp [Bool.not_eq_true] at hterm ⊢; exact hterm)]
  · intro cs e pws hcs he hpws hid
    unfold State.updateStateStatusUpdate
    by_cases hterm : msg.planStatus.state.isTerminal = true
    · rw [if_neg (by simp [hterm])]
      simp only [hcs, he, hpws]
      rw [if_pos hid]
    · rw [if_pos (by simp [Bool.not_eq_true] at hterm ⊢; exact hterm)]

/-- Counterexample for C5: on `exampleStore1` (component "mybase" known,
holding only execution 1), a status update targeting the unknown execution
99 reads the zero-value execution and indexes `history[0]` of its nil
history — the Go code panics (modelled by `none`); the notification is
neither logged-and-dropped nor state-preserving. -/
theorem C5_unknown_execution_panics :
    exampleStore1.updateStateStatusUpdate
      ⟨"mybase", 99, 2, ⟨.stopped, 50, none⟩⟩ = none ∧
    ¬ ∃ s', exampleStore1.updateStateStatusUpdate
      ⟨"mybase", 99, 2, ⟨.stopped, 50, none⟩⟩ = some s' := by
  refine ⟨rfl, ?_⟩
  rintro ⟨s', hs'⟩
  rw [(rfl : exampleStore1.updateStateStatusUpdate
    ⟨"mybase", 99, 2, ⟨.stopped, 50, none⟩⟩ = none)] at hs'
  cases hs'

/-! ### C6: StopExecutionByResource -/

/-- C6: `StopExecutionByResource` returns UnknownResource when the component
has no componentState, NotFound when the newest execution id has no entry in
the executions map ("the ComponentState has no executions"), and success
otherwise — with no condition on the newest plan's status, so also when it
is already terminal.  The fourth conjunct is idempotence: once a stop
succeeded (including the Stopped notification of the cancelled worker,
`stopResource`), a second stop succeeds and leaves the store exactly as the
first left it. -/
theorem C6_stop_execution_by_resource :
    ∀ (s : State) (name : String) (t t' : Nat),
      (mapLookup s.componentStateByComponent name = none →
        s.stopExecutionByResource name = some (.error .unknownResource) ∧
        s.stopResource name t = some (.error .unknownResource)) ∧
      (∀ cs lastId,
        mapLookup s.componentStateByComponent name = some cs →
        cs.executionIDHistory.head? = some lastId →
        mapLookup cs.executionsByID lastId = none →
        s.stopExecutionByResource name = some (.error .notFound)) ∧
      (∀ cs lastId e,
        mapLookup s.componentStateByComponent name = some cs →
        cs.executionIDHistory.head? = some lastId →
        mapLookup cs.executionsByID lastId = some e →
        s.stopExecutionByResource name = some (.ok ())) ∧
      (∀ s₁, s.stopResource name t = some (.ok s₁) →
        s₁.stopExecutionByResource name = some (.ok ()) ∧
        s₁.stopResource name t' = some (.ok s₁)) := by
  intro s name t t'
  refine ⟨?_, ?_, ?_, ?_⟩
  · intro hcs
    constructor
    · unfold State.stopExecutionByResource
      rw [hcs]
    · unfold State.stopResource
      rw [hcs]
  · intro cs lastId hcs hhead he
    unfold State.stopExecutionByResource
    simp only [hcs, hhead, he]
  · intro cs lastId e hcs hhead he
    unfold State.stopExecutionByResource
    simp only [hcs, hhead, he]
  · intro s1 h
    unfold State.stopResource at h
    split at h
    · simp at h
    · rename_i cs hcs
      split at h
      · cases h
      · rename_i lastId hhead
        split at h
        · simp at h
        · rename_i e he
          split at h
          · cases h
          · rename_i pws hpws
            split at h
            · cases h
            · rename_i st hst
              split at h
              · rename_i hterm
                obtain rfl : s = s1 := by
                  simpa using h
                constructor
                · unfold State.stopExecutionByResource
                  simp only [hcs, hhead, he]
                · unfold State.stopResource
                  simp only [hcs, hhead, he, hpws, hst]
                  rw [if_pos hterm]
              · rename_i hterm
                unfold State.notifyStatePlanStopped at h
                rw [@updateStateStatusUpdate_accepted s
                  ⟨name, lastId, pws.plan.id, ⟨.stopped, t, none⟩⟩ cs e pws
                  rfl hcs he hpws rfl] at h
                simp only [Option.map_some', Option.some.injEq,
                  Except.ok.injEq] at h
                subst h
                constructor
                · unfold State.stopExecutionByResource
                  simp only [mapLookup_insert_self, hhead]
                · unfold State.stopResource
                  simp only [mapLookup_insert_self, hhead, List.head?_cons]
                  rfl

/-! ### C8: the default ListPlanStatuses ordering -/

theorem wellFormedB_spec (s : State) (h : s.wellFormedB = true) :
    ∀ p ∈ s.componentStateByComponent,
      (∀ id ∈ p.2.executionIDHistory,
        (mapLookup p.2.executionsByID id).isSome = true) ∧
      (∀ q ∈ p.2.executionsByID, ∀ pws ∈ q.2.history, pws.statusHistory ≠ []) := by
  unfold State.wellFormedB at h
  rw [Bool.and_eq_true, List.all_eq_true] at h
  intro p hp
  have h2 := h.2 p hp
  simp only [Bool.and_eq_true, List.all_eq_true] at h2
  obtain ⟨⟨⟨-, -⟩, hids⟩, hexec⟩ := h2
  refine ⟨hids, ?_⟩
  intro q hq pws hpws
  have h3 := (hexec q hq).2 pws hpws
  simpa using h3

/-- Counterexample for C8's cross-component ordering: the listing iterates
the component map (in the model: insertion order; in Go: unspecified map
iteration order), so component "a" — the less recently active one — is
emitted before the newest component "b", refuting "all entries of the newest
component come first". -/
theorem C8_newest_component_not_first :
    ¬ claimListOrderedByComponentRecency exC8Store := by
  intro hcl
  have h2 := hcl
    [⟨1, "a", 2, ⟨.stopped, 1, none⟩⟩, ⟨3, "b", 4, ⟨.inProgress, 2, none⟩⟩] rfl
  rw [List.pairwise_cons] at h2
  have h3 := h2.1 _ (List.mem_cons_self _ _)
  revert h3
  decide

/-- C8 (amended): on a well-formed store the default listing emits, for each
component in map-iteration order (not recency order), for each execution in
id-history order (newest first, since `updateStateNewExecution` prepends),
for each plan newest first, that plan's newest status — exactly
`flatStatuses`. -/
theorem C8_listing_structure (s : State) (h : s.wellFormedB = true) :
    s.listPlanStatuses false = some (.ok (flatStatuses s)) := by
  unfold State.listPlanStatuses flatStatuses
  rw [if_neg (by simp)]
  exact listAllEntries_eq _ (wellFormedB_spec s h)

/-- Witness for C8's amended theorem at the two-component store. -/
theorem C8_listing_structure_witness :
    exC8Store.listPlanStatuses false = some (.ok (flatStatuses exC8Store)) :=
  C8_listing_structure exC8Store (by decide)

/-! ### C7: the TTL sweep (modelled from the spec) -/

theorem mapLookup_map_value {κ α β : Type} [DecidableEq κ] (f : α → β)
    (m : List (κ × α)) (k : κ) :
    mapLookup (m.map fun p => (p.1, f p.2)) k = (mapLookup m k).map f := by
  induction m with
  | nil => rfl
  | cons p rest ih =>
    by_cases hp : p.1 = k
    · simp [mapLookup, hp]
    · simp [mapLookup, hp, ih]

theorem mapM_pwsEntry_executionID {e : stateExecution} {l : List PlanWithStatus}
    {lst : List PlanStatusWithID} {entry : PlanStatusWithID}
    (h : l.mapM (pwsEntry e) = some lst) (hm : entry ∈ lst) :
    entry.executionID = e.id := by
  induction l generalizing lst with
  | nil =>
    obtain rfl := Option.some.inj h
    cases hm
  | cons a rest ih =>
    rw [List.mapM_cons] at h
    cases hx : pwsEntry e a with
    | none => rw [hx] at h; cases h
    | some x =>
      rw [hx] at h
      cases hrest : rest.mapM (pwsEntry e) with
      | none => rw [hrest] at h; cases h
      | some xs =>
        rw [hrest] at h
        obtain rfl : x :: xs = lst := Option.some.inj h
        rcases List.mem_cons.mp hm with rfl | hm'
        · unfold pwsEntry at hx
          cases hs : a.statusHistory.head? with
          | none => rw [hs] at hx; cases hx
          | some st =>
            rw [hs] at hx
            obtain rfl := Option.some.inj hx
            rfl
        · exact ih hrest hm'

theorem csEntries_executionID {cs : componentState} {l : List Nat}
    {lst : List PlanStatusWithID} {entry : PlanStatusWithID}
    (h : csEntries cs l = some (.ok lst)) (hm : entry ∈ lst) :
    ∃ q ∈ cs.executionsByID, entry.executionID = q.2.id := by
  induction l generalizing lst with
  | nil =>
    obtain h' := Option.some.inj h
    cases h'
    cases hm
  | cons id0 rest ih =>
    unfold csEntries at h
    cases he0 : mapLookup cs.executionsByID id0 with
    | none =>
      simp only [he0] at h
      simp at h
    | some e0 =>
      simp only [he0] at h
      cases hx : execEntries e0 with
      | none => simp only [hx] at h; cases h
      | some l0 =>
        simp only [hx] at h
        cases hrest : csEntries cs rest with
        | none => simp only [hrest] at h; cases h
        | some r =>
          simp only [hrest] at h
          cases r with
          | error err => simp at h
          | ok l' =>
            obtain h' := Option.some.inj h
            cases h'
            rcases List.mem_append.mp hm with hm' | hm'
            · exact ⟨(id0, e0), mapLookup_mem he0,
                mapM_pwsEntry_executionID hx hm'⟩
            · exact ih hrest hm'

theorem listAllEntries_executionID {comps : List (String × componentState)}
    {lst : List PlanStatusWithID} {entry : PlanStatusWithID}
    (h : listAllEntries comps = some (.ok lst)) (hm : entry ∈ lst) :
    ∃ p ∈ comps, ∃ q ∈ p.2.executionsByID, entry.executionID = q.2.id := by
  induction comps generalizing lst with
  | nil =>
    obtain h' := Option.some.inj h
    cases h'
    cases hm
  | cons p rest ih =>
    unfold listAllEntries at h
    cases hx : csEntries p.2 p.2.executionIDHistory with
    | none => simp only [hx] at h; cases h
    | some r =>
      simp only [hx] at h
      cases r with
      | error err => simp at h
      | ok l0 =>
        cases hrest : listAllEntries rest with
        | none => simp only [hrest] at h; cases h
        | some r' =>
          simp only [hrest] at h
          cases r' with
          | error err => simp at h
          | ok l' =>
            obtain h' := Option.some.inj h
            cases h'
            rcases List.mem_append.mp hm with hm' | hm'
            · obtain ⟨q, hq, hqid⟩ := csEntries_executionID hx hm'
              exact ⟨p, List.mem_cons_self _ _, q, hq, hqid⟩
            · obtain ⟨p', hp', q, hq, hqid⟩ := ih hrest hm'
              exact ⟨p', List.mem_cons_of_mem _ hp', q, hq, hqid⟩

/-- C7: after the sweep runs at a moment `now` by which the execution's
newest plan has been terminal for longer than `TTL` (which is the case once
`TTL + TTLCheckInterval` has elapsed since the terminal transition), the
execution is gone from the executions map and the id history, `PlanHistory`
by its id reports NotFound, and no entry of the default `ListPlanStatuses`
carries its id; an execution whose newest plan is non-terminal survives
every sweep with its history intact, regardless of age.  `huniq` is the
uuid-uniqueness contract (no other recorded execution carries this id);
`hid0` is uuid non-nilness. -/
theorem C7_ttl_sweep_eviction (s : State) (ttl now : Nat) (name : String)
    (cs : componentState) (id : Nat) (e : stateExecution)
    (hid0 : id ≠ 0)
    (hcs : mapLookup s.componentStateByComponent name = some cs)
    (he : mapLookup cs.executionsByID id = some e)
    (hnd2 : (cs.executionsByID.map Prod.fst).Nodup)
    (huniq : ∀ p ∈ s.componentStateByComponent, ∀ q ∈ p.2.executionsByID,
      q.2.id = e.id → q.2 = e) :
    (∀ st, e.newestStatus? = some st → st.state.isTerminal = true →
      st.timestamp + ttl < now →
      mapLookup (cs.ttlSweep ttl now).executionsByID id = none ∧
      id ∉ (cs.ttlSweep ttl now).executionIDHistory ∧
      (s.ttlSweep ttl now).planHistory name id false = some (.error .notFound) ∧
      (∀ l, (s.ttlSweep ttl now).listPlanStatuses false = some (.ok l) →
        ∀ entry ∈ l, entry.executionID ≠ e.id)) ∧
    (∀ st, e.newestStatus? = some st → st.state.isTerminal = false →
      mapLookup (cs.ttlSweep ttl now).executionsByID id = some e ∧
      (id ∈ cs.executionIDHistory → id ∈ (cs.ttlSweep ttl now).executionIDHistory) ∧
      (s.ttlSweep ttl now).planHistory name id false = some (.ok e.history)) := by
  have hmap : mapLookup (s.ttlSweep ttl now).componentStateByComponent name =
      (mapLookup s.componentStateByComponent name).map
        (fun c => c.ttlSweep ttl now) := by
    unfold State.ttlSweep
    exact mapLookup_map_value (fun c => c.ttlSweep ttl now)
      s.componentStateByComponent name
  have hlookupSwept : mapLookup (s.ttlSweep ttl now).componentStateByComponent
      name = some (cs.ttlSweep ttl now) := by
    rw [hmap, hcs]
    rfl
  constructor
  · intro st hnew hterm hold
    have hev : executionEvictable ttl now e = true := by
      unfold executionEvictable
      rw [hnew]
      simp [hterm, hold]
    have hgone : mapLookup (cs.ttlSweep ttl now).executionsByID id = none := by
      unfold componentState.ttlSweep
      exact mapLookup_filter_of_dropped hnd2 he (by simp [hev])
    refine ⟨hgone, ?_, ?_, ?_⟩
    · intro hmem
      unfold componentState.ttlSweep at hmem
      have h2 := (List.mem_filter.mp hmem).2
      rw [he] at h2
      simp [hev] at h2
    · unfold State.planHistory
      simp [hlookupSwept, hgone, hid0]
    · intro l hl entry hentry hide
      unfold State.listPlanStatuses at hl
      rw [if_neg (by simp)] at hl
      obtain ⟨p', hp', q, hq, hqid⟩ := listAllEntries_executionID hl hentry
      unfold State.ttlSweep at hp'
      obtain ⟨p, hp, rfl⟩ := List.mem_map.mp hp'
      unfold componentState.ttlSweep at hq
      have hq2 := List.mem_filter.mp hq
      have hqe : q.2 = e := huniq p hp q hq2.1 (by rw [← hqid, hide])
      rw [hqe, hev] at hq2
      simp at hq2
  · intro st hnew hterm
    have hev : executionEvictable ttl now e = false := by
      unfold executionEvictable
      rw [hnew]
      simp [hterm]
    have hkept : mapLookup (cs.ttlSweep ttl now).executionsByID id = some e := by
      unfold componentState.ttlSweep
      exact mapLookup_filter_of_kept he (by simp [hev])
    refine ⟨hkept, ?_, ?_⟩
    · intro hmem
      unfold componentState.ttlSweep
      refine List.mem_filter.mpr ⟨hmem, ?_⟩
      rw [he]
      simp [hev]
    · unfold State.planHistory
      simp [hlookupSwept, hkept, hid0]

/-- Witness for C7 with TTL 100 at sweep time 200: the stopped execution
(terminal at time 5) is evicted everywhere, while the in-progress execution
survives with its history intact. -/
theorem C7_ttl_sweep_eviction_witness :
    (mapLookup (exC7CS.ttlSweep 100 200).executionsByID 1 = none ∧
     1 ∉ (exC7CS.ttlSweep 100 200).executionIDHistory ∧
     (exC7Store.ttlSweep 100 200).planHistory "mybase" 1 false =
       some (.error .notFound) ∧
     (∀ l, (exC7Store.ttlSweep 100 200).listPlanStatuses false = some (.ok l) →
       ∀ entry ∈ l, entry.executionID ≠ exC7Stopped.id)) ∧
    (mapLookup (exC7CS.ttlSweep 100 200).executionsByID 3 = some exC7Active ∧
     (3 ∈ exC7CS.executionIDHistory →
       3 ∈ (exC7CS.ttlSweep 100 200).executionIDHistory) ∧
     (exC7Store.ttlSweep 100 200).planHistory "mybase" 3 false =
       some (.ok exC7Active.history)) := by
  constructor
  · exact (C7_ttl_sweep_eviction exC7Store 100 200 "mybase" exC7CS 1 exC7Stopped
      (by decide) rfl rfl (by decide) (by decide)).1
      ⟨.stopped, 5, none⟩ rfl rfl (by decide)
  · exact (C7_ttl_sweep_eviction exC7Store 100 200 "mybase" exC7CS 3 exC7Active
      (by decide) rfl rfl (by decide) (by decide)).2
      ⟨.inProgress, 6, none⟩ rfl rfl

end MotionState
